import Mathlib

/-!
# Verification of the cmu-dsc poker-engine core

A shallow embedding of the heads-up poker referee: the round state machine,
the engine-side action validator and orchestration loop (`src/engine/engine.py`),
the time-budgeted RPC client (`src/engine/client.py`), the configuration
constants (`src/engine/config.py`), and the agent-side protocol mirror
(`src/python_skeleton/skeleton/runner.py`).

The round-state transition function itself (`engine/roundstate.py`,
`skeleton/states.py`) and the hand evaluator are not part of the provided
sources; those definitions are modelled from the specification (sections 3,
4.1 and 4.4) and are marked as such in their doc comments.
-/

namespace PokerEngine

/-- Cards travel on the wire as short strings such as "Ah". -/
abbrev Card := String

/-- A player's hole cards. -/
abbrev Hand := List Card

/-! ## Configuration constants, from `src/engine/config.py`. -/

/-- `SMALL_BLIND = 1` in `config.py`. -/
def SMALL_BLIND : Nat := 1

/-- `BIG_BLIND = 2` in `config.py`. -/
def BIG_BLIND : Nat := 2

/-- `STARTING_STACK = 400` in `config.py`. -/
def STARTING_STACK : Nat := 400

/-- `NUM_ROUNDS = 1000` in `config.py`. -/
def NUM_ROUNDS : Nat := 1000

/-- `ACTION_REQUEST_RETRIES = 2` in `config.py`. -/
def ACTION_REQUEST_RETRIES : Nat := 2

/-- `READY_CHECK_RETRIES = 1` in `config.py`. -/
def READY_CHECK_RETRIES : Nat := 1

/-- `ENFORCE_GAME_CLOCK = True` in `config.py`. -/
def ENFORCE_GAME_CLOCK : Bool := true

/-- `STARTING_GAME_CLOCK = 300.0` seconds in `config.py`. -/
def STARTING_GAME_CLOCK : ℚ := 300

/-- `PLAYER_LOG_SIZE_LIMIT = 1000000` bytes in `config.py`. -/
def PLAYER_LOG_SIZE_LIMIT : Nat := 1000000

/-! ## Actions (`engine/actions.py`, mirrored by `skeleton/actions.py`). -/

/-- One of `FoldAction`, `CheckAction`, `CallAction`, `RaiseAction(amount)`. -/
inductive Action where
  | fold
  | check
  | call
  | raise (amount : Nat)
deriving DecidableEq, Repr

/-- The tag of an action, forgetting the raise amount: the Python code
compares action classes against the `legal_actions()` set. -/
inductive ATag where
  | fold
  | check
  | call
  | raise
deriving DecidableEq, Repr

/-- Class of an action object, as used by `type(action) in legal_actions`. -/
def Action.tag : Action → ATag
  | .fold => .fold
  | .check => .check
  | .call => .call
  | .raise _ => .raise

/-! ## Round state (data model from spec section 3). -/

/-- One in-progress hand.  Fields follow the spec's data model: the acting
player is `button % 2`; `pips` are the chips committed during the current
betting street; `stacks'` are chips remaining behind; `deck` is the
remaining-card source (engine side only).  The `previous_state` history
pointer is irrelevant to every property proved here and is omitted. -/
structure RoundState where
  button : Nat
  street : Nat
  pips : Nat × Nat
  stacks' : Nat × Nat
  hands : Hand × Hand
  board : List Card
  deck : List Card
deriving DecidableEq, Repr

/-- A finished hand: net chip change per player plus the last live state. -/
structure TerminalState where
  deltas : Int × Int
  prev : RoundState
deriving DecidableEq, Repr

/-- Index a two-player quantity by player number (0 or 1). -/
def getP (p : Nat × Nat) (i : Nat) : Nat := if i = 0 then p.1 else p.2

/-- Update a two-player quantity at player number (0 or 1). -/
def setP (p : Nat × Nat) (i : Nat) (v : Nat) : Nat × Nat :=
  if i = 0 then (v, p.2) else (p.1, v)

/-- Index the pair of hands by player number. -/
def getH (h : Hand × Hand) (i : Nat) : Hand := if i = 0 then h.1 else h.2

/-- Update the pair of hands at player number. -/
def setH (h : Hand × Hand) (i : Nat) (v : Hand) : Hand × Hand :=
  if i = 0 then (v, h.2) else (h.1, v)

/-- The acting player, always `button % 2` (spec section 3 invariant). -/
def RoundState.active (s : RoundState) : Nat := s.button % 2

/-- Additional chips the acting player must add to match the opponent's
commitment: `pips[1 - active] - pips[active]` (engine.py line 275). -/
def continueCost (s : RoundState) : Int :=
  (getP s.pips (1 - s.active) : Int) - (getP s.pips s.active : Int)

/-- Chips player `i` has lost from its starting stack during this hand. -/
def contribution (s : RoundState) (i : Nat) : Int :=
  (STARTING_STACK : Int) - (getP s.stacks' i : Int)

/-- Modelled from the spec: `roundstate.py` is not under `src/`;
`raise_bounds()` follows section 4.1: the minimum is the larger of the last
raise increment (the continue-cost) and one big blind added to the current
bet, the maximum is an all-in-sized bet (the shorter stack's all-in capped
by the actor's own stack); the range is empty (min exceeds max) exactly
when the actor cannot cover the minimum.  Both endpoints are total raise
amounts, matched against `min_raise <= amount <= max_raise` in
`engine.py`. -/
def raiseBounds (s : RoundState) : Int × Int :=
  let a := s.active
  let cc := continueCost s
  ((getP s.pips a : Int) + cc + max cc (BIG_BLIND : Int),
   (getP s.pips a : Int) + min (getP s.stacks' a : Int) ((getP s.stacks' (1 - a) : Int) + cc))

/-- Modelled from the spec: Fold is legal unless the continue-cost is zero
(section 4.1). -/
def foldLegal (s : RoundState) : Bool := continueCost s != 0

/-- Modelled from the spec: Check is legal iff the continue-cost is zero
(section 4.1). -/
def checkLegal (s : RoundState) : Bool := continueCost s == 0

/-- Modelled from the spec: Call is legal iff the continue-cost is positive
and the caller has chips behind (section 4.1). -/
def callLegal (s : RoundState) : Bool :=
  (0 < continueCost s) && (0 < getP s.stacks' s.active)

/-- Modelled from the spec: Raise is legal iff the raiser has chips behind
after matching the continue-cost and `raise_bounds()` yields a non-empty
range (section 4.1). -/
def raiseLegal (s : RoundState) : Bool :=
  (continueCost s < (getP s.stacks' s.active : Int)) &&
    ((raiseBounds s).1 ≤ (raiseBounds s).2)

/-- Membership of an action class in `legal_actions()` (spec section 4.1). -/
def tagLegal (s : RoundState) : ATag → Bool
  | .fold => foldLegal s
  | .check => checkLegal s
  | .call => callLegal s
  | .raise => raiseLegal s

/-! ## The validator, from `Game._validate_action` (`engine.py` 251-292). -/

/-- `Game._validate_action`: coerces a proposed action (possibly `None`,
which the orchestrator passes when `request_action` returned no action)
into a legal one.  Raise with amount inside `raise_bounds()` and Raise
legal is accepted; an illegal Raise downgrades to Call when Call is legal
and the amount at least covers the continue-cost; any other illegal input
falls back to Check if legal, else Fold. -/
def validate (oa : Option Action) (s : RoundState) : Action :=
  let fallback : Action := if checkLegal s then .check else .fold
  match oa with
  | some (.raise amt) =>
      if raiseLegal s && ((raiseBounds s).1 ≤ (amt : Int)) && ((amt : Int) ≤ (raiseBounds s).2) then
        .raise amt
      else if callLegal s && (continueCost s ≤ (amt : Int)) then
        .call
      else fallback
  | some a => if tagLegal s a.tag then a else fallback
  | none => fallback

/-! ## The round state machine (spec sections 3, 4.1). -/

/-- Modelled from the spec: the hand evaluator (`engine/evaluate.py`) is not
under `src/`; it is an external collaborator reduced to an abstract
parameter `rank hand board` with higher rank winning (section 6). -/
def Rank := Hand → List Card → Nat

/-- Modelled from the spec: showdown settlement (section 4.1): the higher
rank wins the pot, a tie splits it with the odd chip going to the player in
the earlier button position (player 0). -/
def showdown (rank : Rank) (s : RoundState) : TerminalState :=
  let c0 := contribution s 0
  let c1 := contribution s 1
  let r0 := rank s.hands.1 s.board
  let r1 := rank s.hands.2 s.board
  if r1 < r0 then ⟨(c1, -c1), s⟩
  else if r0 < r1 then ⟨(-c0, c0), s⟩
  else
    let pot := c0 + c1
    ⟨(pot / 2 + pot % 2 - c0, pot / 2 - c1), s⟩

/-- Number of community cards revealed when leaving the given street:
three for the flop, one for the turn and the river (spec section 8). -/
def dealCount (street : Nat) : Nat := if street = 0 then 3 else 1

/-- Modelled from the spec: street advancement once both players have
matched pips (section 4.1): past the river the hand goes to showdown,
otherwise the street advances (0 jumps to 3, matching the count of
community cards), per-street pips reset, the first player to act on the
new street is player 1, and — on the engine side only (`deal = true`) —
the next board increment is dealt from the deck.  The agent-side state
(`skeleton/states.py`, not under `src/`) holds no deck; its board is
installed from the authoritative `board_cards` of each message
(`runner.py` lines 52-63), so its transition (`deal = false`) leaves the
board unchanged. -/
def advanceStreet (deal : Bool) (rank : Rank) (s : RoundState) : RoundState ⊕ TerminalState :=
  if s.street = 5 then .inr (showdown rank s)
  else
    let n := dealCount s.street
    .inl { button := 1
           street := if s.street = 0 then 3 else s.street + 1
           pips := (0, 0)
           stacks' := s.stacks'
           hands := s.hands
           board := if deal then s.board ++ s.deck.take n else s.board
           deck := if deal then s.deck.drop n else s.deck }

/-- Modelled from the spec: the shared deterministic transition function
`proceed` (sections 4.1 and the design note on both sides being the same
automaton), with `roundstate.py` and `skeleton/states.py` missing from
`src/`.  Fold ends the hand with the folder losing its committed chips and
the opponent recovering them; a preflop small-blind call gives the big
blind the option (no street advance); any other call matches the pips and
advances the street; a check either passes the action or — once both
players have acted — advances the street; a raise updates pips and stacks
and passes the action back. -/
def proceedAux (deal : Bool) (rank : Rank) (s : RoundState) (a : Action) :
    RoundState ⊕ TerminalState :=
  let i := s.active
  match a with
  | .fold =>
      let c := contribution s i
      .inr ⟨if i = 0 then (-c, c) else (c, -c), s⟩
  | .call =>
      if s.button = 0 then
        .inl { button := 1
               street := 0
               pips := (BIG_BLIND, BIG_BLIND)
               stacks' := (STARTING_STACK - BIG_BLIND, STARTING_STACK - BIG_BLIND)
               hands := s.hands
               board := s.board
               deck := s.deck }
      else
        let cc := getP s.pips (1 - i) - getP s.pips i
        advanceStreet deal rank
          { s with button := s.button + 1
                   pips := setP s.pips i (getP s.pips (1 - i))
                   stacks' := setP s.stacks' i (getP s.stacks' i - cc) }
  | .check =>
      if (s.street = 0 && 0 < s.button) || 1 < s.button then
        advanceStreet deal rank { s with button := s.button + 1 }
      else
        .inl { s with button := s.button + 1 }
  | .raise amt =>
      let c := amt - getP s.pips i
      .inl { s with button := s.button + 1
                    pips := setP s.pips i amt
                    stacks' := setP s.stacks' i (getP s.stacks' i - c) }

/-- The engine-side transition: deals board increments from the deck. -/
def proceed (rank : Rank) (s : RoundState) (a : Action) : RoundState ⊕ TerminalState :=
  proceedAux true rank s a

/-- The mirror-side transition: no deck, the board is left for the
authoritative `board_cards` of the next message. -/
def proceedM (rank : Rank) (s : RoundState) (a : Action) : RoundState ⊕ TerminalState :=
  proceedAux false rank s a

/-- A concrete evaluator instance used by the executable witnesses. -/
def rank0 : Rank := fun _ _ => 0

/-- The engine's fresh hand (`Game.run_round`, engine.py lines 151-157):
blinds posted, stacks reduced, two hands dealt, empty board. -/
def initRS (h0 h1 : Hand) (deck : List Card) : RoundState :=
  { button := 0
    street := 0
    pips := (SMALL_BLIND, BIG_BLIND)
    stacks' := (STARTING_STACK - SMALL_BLIND, STARTING_STACK - BIG_BLIND)
    hands := (h0, h1)
    board := []
    deck := deck }

/-! ## Basic facts about legality and settlement. -/

/-- Folding is legal exactly when checking is not (both are decided by
whether the continue-cost is zero). -/
theorem foldLegal_eq_not_checkLegal (s : RoundState) : foldLegal s = !(checkLegal s) := rfl

/-- The validator's fallback (`CheckAction` if legal else `FoldAction`,
engine.py line 292) always carries a legal tag. -/
theorem fallback_legal (s : RoundState) :
    tagLegal s (if checkLegal s then Action.check else Action.fold).tag = true := by
  by_cases h : checkLegal s
  · simp [h, Action.tag, tagLegal]
  · have h' : checkLegal s = false := by
      cases hc : checkLegal s
      · rfl
      · exact absurd hc h
    simp [h', Action.tag, tagLegal, foldLegal_eq_not_checkLegal]

/-- C2 helper: showdown settlement is net-zero in every branch. -/
theorem showdown_net_zero (rank : Rank) (u : RoundState) :
    (showdown rank u).deltas.1 + (showdown rank u).deltas.2 = 0 := by
  unfold showdown
  dsimp only
  split
  · dsimp only
    omega
  · split
    · dsimp only
      omega
    · dsimp only
      omega

/-- C2 helper: whenever street advancement ends the hand, the resulting
deltas are net-zero. -/
theorem advanceStreet_net_zero (deal : Bool) (rank : Rank) (u : RoundState)
    (t : TerminalState) (h : advanceStreet deal rank u = .inr t) :
    t.deltas.1 + t.deltas.2 = 0 := by
  unfold advanceStreet at h
  split at h
  · cases h
    exact showdown_net_zero rank u
  · cases h

/-- C2: every `TerminalState` the transition function produces has deltas
summing to zero — the settlement is net-zero between the two players. -/
theorem terminal_deltas_net_zero (rank : Rank) (s : RoundState) (a : Action)
    (t : TerminalState) (h : proceed rank s a = .inr t) :
    t.deltas.1 + t.deltas.2 = 0 := by
  unfold proceed proceedAux at h
  cases a with
  | fold =>
      dsimp only at h
      rw [Sum.inr.injEq] at h
      subst h
      dsimp only
      split
      · omega
      · omega
  | call =>
      dsimp only at h
      split at h
      · cases h
      · exact advanceStreet_net_zero true rank _ t h
  | check =>
      dsimp only at h
      split at h
      · exact advanceStreet_net_zero true rank _ t h
      · cases h
  | raise amt =>
      cases h

/-- Concrete hand used by the executable witnesses. -/
def s0w : RoundState := initRS ["Ah", "Ad"] ["Kh", "Kd"] ["2c", "3c", "4c", "5c", "6c"]

/-- Witness for C2: the small blind folding the very first decision yields
deltas `(-1, 1)`, which sum to zero. -/
theorem terminal_deltas_net_zero_witness :
    proceed rank0 s0w .fold = .inr ⟨(-1, 1), s0w⟩ ∧
      (TerminalState.mk (-1, 1) s0w).deltas.1 + (TerminalState.mk (-1, 1) s0w).deltas.2 = 0 :=
  ⟨by decide, terminal_deltas_net_zero rank0 s0w .fold ⟨(-1, 1), s0w⟩ (by decide)⟩

/-! ## C3: the validator's guarantees. -/

/-- A raise amount inside `raise_bounds()` forces Raise to be legal: a
non-empty range means the actor covers the minimum, which strictly exceeds
the continue-cost. -/
theorem inBounds_raiseLegal (s : RoundState) (amt : Nat)
    (h1 : (raiseBounds s).1 ≤ (amt : Int)) (h2 : (amt : Int) ≤ (raiseBounds s).2) :
    raiseLegal s = true := by
  have hne : (raiseBounds s).1 ≤ (raiseBounds s).2 := le_trans h1 h2
  have hb : raiseBounds s =
      ((getP s.pips s.active : Int) + continueCost s + max (continueCost s) (BIG_BLIND : Int),
       (getP s.pips s.active : Int) +
         min (getP s.stacks' s.active : Int) ((getP s.stacks' (1 - s.active) : Int) + continueCost s)) := rfl
  unfold raiseLegal
  rw [Bool.and_eq_true, decide_eq_true_eq, decide_eq_true_eq]
  refine ⟨?_, hne⟩
  rw [hb] at hne
  dsimp only at hne
  have hbb : (BIG_BLIND : Int) = 2 := rfl
  omega

/-- Unfolding of `validate` on a proposed Raise (engine.py lines 271-286). -/
theorem validate_raise_eq (s : RoundState) (amt : Nat) :
    validate (some (.raise amt)) s =
      (if raiseLegal s && ((raiseBounds s).1 ≤ (amt : Int)) && ((amt : Int) ≤ (raiseBounds s).2)
       then Action.raise amt
       else if callLegal s && (continueCost s ≤ (amt : Int)) then Action.call
       else if checkLegal s then Action.check else Action.fold) := rfl

/-- Unfolding of `validate` on a non-Raise action (engine.py lines 287-292). -/
theorem validate_plain_eq (s : RoundState) (a : Action) (h : a.tag ≠ ATag.raise) :
    validate (some a) s =
      (if tagLegal s a.tag then a else if checkLegal s then Action.check else Action.fold) := by
  cases a with
  | raise amt => exact absurd rfl h
  | fold => rfl
  | check => rfl
  | call => rfl

/-- A validated non-Raise action always carries a legal tag. -/
theorem validate_plain_legal (s : RoundState) (a : Action) (h : a.tag ≠ ATag.raise) :
    tagLegal s (validate (some a) s).tag = true := by
  rw [validate_plain_eq s a h]
  split
  · next ht => exact ht
  · exact fallback_legal s

/-- The accept condition of the Raise branch, assembled. -/
theorem raise_cond_true (s : RoundState) (amt : Nat) (hr : raiseLegal s = true)
    (h1 : (raiseBounds s).1 ≤ (amt : Int)) (h2 : (amt : Int) ≤ (raiseBounds s).2) :
    (raiseLegal s && ((raiseBounds s).1 ≤ (amt : Int)) && ((amt : Int) ≤ (raiseBounds s).2)) = true := by
  rw [Bool.and_eq_true, Bool.and_eq_true, decide_eq_true_eq, decide_eq_true_eq]
  exact ⟨⟨hr, h1⟩, h2⟩

/-- The accept condition of the Raise branch, refuted by out-of-bounds. -/
theorem raise_cond_false (s : RoundState) (amt : Nat)
    (hnb : ¬((raiseBounds s).1 ≤ (amt : Int) ∧ (amt : Int) ≤ (raiseBounds s).2)) :
    ¬((raiseLegal s && ((raiseBounds s).1 ≤ (amt : Int)) && ((amt : Int) ≤ (raiseBounds s).2)) = true) := by
  rw [Bool.and_eq_true, Bool.and_eq_true, decide_eq_true_eq, decide_eq_true_eq]
  rintro ⟨⟨-, h1⟩, h2⟩
  exact hnb ⟨h1, h2⟩

/-- The Call-downgrade condition, assembled. -/
theorem call_cond_true (s : RoundState) (amt : Nat) (hc : callLegal s = true)
    (hcc : continueCost s ≤ (amt : Int)) :
    (callLegal s && (continueCost s ≤ (amt : Int))) = true := by
  rw [Bool.and_eq_true, decide_eq_true_eq]
  exact ⟨hc, hcc⟩

/-- The Call-downgrade condition, refuted. -/
theorem call_cond_false (s : RoundState) (amt : Nat)
    (h : ¬(callLegal s = true ∧ continueCost s ≤ (amt : Int))) :
    ¬((callLegal s && (continueCost s ≤ (amt : Int))) = true) := by
  rw [Bool.and_eq_true, decide_eq_true_eq]
  exact h

/-- C3 (amended): the validator returns an action whose tag is in
`legal_actions()`; a Raise whose amount lies within `raise_bounds()` is
returned unchanged; an out-of-bounds Raise downgrades to Call when Call is
legal and the amount at least covers the continue-cost, and otherwise
falls back to Check if legal else Fold; the same fallback handles every
other illegal action; a returned Raise is always the proposed in-bounds
one. -/
theorem validator_policy (a : Action) (s : RoundState) :
    tagLegal s (validate (some a) s).tag = true
    ∧ (∀ amt, a = .raise amt →
        (raiseBounds s).1 ≤ (amt : Int) → (amt : Int) ≤ (raiseBounds s).2 →
          validate (some a) s = .raise amt)
    ∧ (∀ amt, a = .raise amt →
        ¬((raiseBounds s).1 ≤ (amt : Int) ∧ (amt : Int) ≤ (raiseBounds s).2) →
          (callLegal s = true → continueCost s ≤ (amt : Int) →
            validate (some a) s = .call)
          ∧ (¬(callLegal s = true ∧ continueCost s ≤ (amt : Int)) →
            validate (some a) s = (if checkLegal s then Action.check else Action.fold)))
    ∧ (a.tag ≠ .raise → tagLegal s a.tag = false →
        validate (some a) s = (if checkLegal s then Action.check else Action.fold))
    ∧ (∀ amt, validate (some a) s = .raise amt →
        a = .raise amt ∧ (raiseBounds s).1 ≤ (amt : Int) ∧ (amt : Int) ≤ (raiseBounds s).2) := by
  refine ⟨?_, ?_, ?_, ?_, ?_⟩
  · cases a with
    | raise amt =>
        rw [validate_raise_eq]
        split
        · next hc =>
            rw [Bool.and_eq_true, Bool.and_eq_true] at hc
            exact hc.1.1
        · split
          · next hc2 =>
              rw [Bool.and_eq_true] at hc2
              exact hc2.1
          · exact fallback_legal s
    | fold => exact validate_plain_legal s .fold (by decide)
    | check => exact validate_plain_legal s .check (by decide)
    | call => exact validate_plain_legal s .call (by decide)
  · intro amt ha h1 h2
    subst ha
    rw [validate_raise_eq, if_pos (raise_cond_true s amt (inBounds_raiseLegal s amt h1 h2) h1 h2)]
  · intro amt ha hnb
    subst ha
    rw [validate_raise_eq, if_neg (raise_cond_false s amt hnb)]
    constructor
    · intro hcall hcc
      rw [if_pos (call_cond_true s amt hcall hcc)]
    · intro hno
      rw [if_neg (call_cond_false s amt hno)]
  · intro hne hil
    cases a with
    | raise amt => exact absurd rfl hne
    | fold => rw [validate_plain_eq s .fold (by decide), if_neg (by simp [hil])]
    | check => rw [validate_plain_eq s .check (by decide), if_neg (by simp [hil])]
    | call => rw [validate_plain_eq s .call (by decide), if_neg (by simp [hil])]
  · intro amt hv
    cases a with
    | raise amt' =>
        rw [validate_raise_eq] at hv
        split at hv
        · next hc =>
            cases hv
            rw [Bool.and_eq_true, Bool.and_eq_true, decide_eq_true_eq, decide_eq_true_eq] at hc
            exact ⟨rfl, hc.1.2, hc.2⟩
        · split at hv
          · cases hv
          · split at hv
            · cases hv
            · cases hv
    | fold =>
        rw [validate_plain_eq s .fold (by decide)] at hv
        split at hv
        · cases hv
        · split at hv
          · cases hv
          · cases hv
    | check =>
        rw [validate_plain_eq s .check (by decide)] at hv
        split at hv
        · cases hv
        · split at hv
          · cases hv
          · cases hv
    | call =>
        rw [validate_plain_eq s .call (by decide)] at hv
        split at hv
        · cases hv
        · split at hv
          · cases hv
          · cases hv

/-- The state after the small blind calls preflop: big-blind option,
continue-cost zero, raise bounds `(4, 400)`. -/
def rsOption : RoundState :=
  { button := 1
    street := 0
    pips := (2, 2)
    stacks' := (398, 398)
    hands := (["Ah", "Ad"], ["Kh", "Kd"])
    board := []
    deck := ["2c", "3c", "4c", "5c", "6c"] }

/-- Counterexample for C3 as stated: at `rsOption` the proposed
`RaiseAction(3)` is illegal (below the minimum raise of 4) and its amount
covers the continue-cost of 0, yet the validator returns `CheckAction`,
not the `CallAction` the claim promises — Call is not legal when the
continue-cost is zero. -/
theorem validator_call_downgrade_cex :
    validate (some (.raise 3)) rsOption = .check
    ∧ continueCost rsOption ≤ (3 : Int)
    ∧ ¬((raiseBounds rsOption).1 ≤ (3 : Int) ∧ (3 : Int) ≤ (raiseBounds rsOption).2)
    ∧ Action.check ≠ Action.call := by
  refine ⟨by decide, by decide, ?_, by decide⟩
  rw [show raiseBounds rsOption = (4, 400) from rfl]
  decide

/-- Witness for C3: at `rsOption` the in-bounds `RaiseAction(4)` is
returned unchanged. -/
theorem validator_policy_witness :
    validate (some (.raise 4)) rsOption = .raise 4 :=
  (validator_policy (.raise 4) rsOption).2.1 4 rfl
    (by rw [show raiseBounds rsOption = (4, 400) from rfl]; decide)
    (by rw [show raiseBounds rsOption = (4, 400) from rfl]; decide)

/-! ## The protocol client (`src/engine/client.py`). -/

/-- The engine-side per-agent RPC stub (`Client.__init__`, client.py lines
29-47): the connection handle and URI play no role in any property proved
here and are omitted. -/
structure Client where
  name : String
  game_clock : ℚ
  bankroll : Int
  log : List String
  log_size : Nat
deriving DecidableEq, Repr

/-- What the environment does on one attempt of the `request_action` retry
loop: a successful round trip carries the converted response (the result
of `_convert_json_to_action`, which is `None` for an unknown action type)
together with the measured wall-clock duration of the round trip; a
`failure` is an `asyncio.TimeoutError` or a closed connection. -/
inductive Attempt where
  | success (resp : Option Action) (duration : ℚ)
  | failure
deriving DecidableEq, Repr

/-- How `Client.request_action` ends: a normal return (`None` once the
retry budget is exhausted), or the raised
`TimeoutError("Game clock has run out")` on clock exhaustion. -/
inductive ReqResult where
  | returned (a : Option Action)
  | clockExhausted
deriving DecidableEq, Repr

/-- `Client.request_action` (client.py lines 129-158), driven by the list
of attempt outcomes (one entry per loop iteration, so a list of length
`ACTION_REQUEST_RETRIES` models one call): the first success measures its
duration, subtracts it from the game clock when the clock is enforced and
raises clock exhaustion if the clock is then ≤ 0; a failed attempt moves
to the next one, and spending the whole budget returns no action rather
than raising. -/
def requestAction (enforce : Bool) : Client → List Attempt → Client × ReqResult
  | c, [] => (c, .returned none)
  | c, .success resp dur :: _ =>
      if enforce then
        let c' := { c with game_clock := c.game_clock - dur }
        if c'.game_clock ≤ 0 then (c', .clockExhausted) else (c', .returned resp)
      else (c, .returned resp)
  | c, .failure :: rest => requestAction enforce c rest

/-- One decision of `Game.run_round` (engine.py lines 163-186): whether
the agent was consulted (a request issued at all), the action handed to
`_validate_action` (`some FoldAction` for a forced fold, `none` when the
request returned no action), and the validated action actually applied to
the round state. -/
structure Decision where
  client : Client
  consulted : Bool
  proposed : Option Action
  applied : Action
deriving DecidableEq, Repr

/-- The decision step of `Game.run_round`: an agent whose clock is ≤ 0 is
not consulted and `FoldAction` is supplied on its behalf; otherwise the
request is issued, a raised clock exhaustion is converted to `FoldAction`,
and whatever comes back goes through the validator. -/
def decideOnce (enforce : Bool) (c : Client) (rs : RoundState) (atts : List Attempt) : Decision :=
  if c.game_clock ≤ 0 then
    ⟨c, false, some .fold, validate (some .fold) rs⟩
  else
    match requestAction enforce c atts with
    | (c', .returned a) => ⟨c', true, a, validate a rs⟩
    | (c', .clockExhausted) => ⟨c', true, some .fold, validate (some .fold) rs⟩

/-- A sequence of decisions for one agent, threading its client state. -/
def decideAll (enforce : Bool) : Client → List (RoundState × List Attempt) → List Decision
  | _, [] => []
  | c, (rs, atts) :: rest =>
      let d := decideOnce enforce c rs atts
      d :: decideAll enforce d.client rest

/-- The first decision of the C4 scenario: clock 5.0, one successful
request whose round trip takes 6.0 seconds. -/
def c4first : Decision := decideOnce true ⟨"agent", 5, 0, [], 0⟩ rsOption [.success (some .check) 6]

/-- The decision after the C4 scenario's expensive request. -/
def c4second : Decision := decideOnce true c4first.client rsOption []

/-- C4 (amended): once an agent's game clock is ≤ 0 every later decision
for it is made without consulting the agent, with `FoldAction` proposed
and the clock still ≤ 0; the proposed fold is applied as `FoldAction`
exactly when folding is legal and as `CheckAction` otherwise (the forced
fold also passes through `_validate_action`); and in the 5.0-second-clock
scenario a single successful 6.0-second request drives the clock to −1
and the very next decision is unconsulted with `FoldAction` proposed. -/
theorem clock_exhaustion_policy :
    (∀ (enforce : Bool) (c : Client) (steps : List (RoundState × List Attempt)),
        c.game_clock ≤ 0 →
        ∀ d ∈ decideAll enforce c steps,
          d.consulted = false ∧ d.proposed = some .fold ∧ d.client.game_clock ≤ 0)
    ∧ (∀ rs : RoundState,
        validate (some .fold) rs = (if foldLegal rs then Action.fold else Action.check))
    ∧ (c4first.client.game_clock = -1 ∧ c4first.proposed = some .fold
        ∧ c4second.consulted = false ∧ c4second.proposed = some .fold
        ∧ c4second.client.game_clock ≤ 0) := by
  refine ⟨?_, ?_, ?_⟩
  · intro enforce c steps
    induction steps generalizing c with
    | nil => intro _ d hd; cases hd
    | cons step rest ih =>
        intro hclk d hd
        obtain ⟨rs, atts⟩ := step
        rw [decideAll] at hd
        have hdec : decideOnce enforce c rs atts = ⟨c, false, some .fold, validate (some .fold) rs⟩ := by
          unfold decideOnce
          rw [if_pos hclk]
        rw [hdec] at hd
        rcases List.mem_cons.mp hd with h | h
        · subst h
          exact ⟨rfl, rfl, hclk⟩
        · exact ih c hclk d h
  · intro rs
    rw [validate_plain_eq rs .fold (by decide)]
    cases hf : foldLegal rs with
    | true => simp [Action.tag, tagLegal, hf]
    | false =>
        have hc : checkLegal rs = true := by
          have h2 := foldLegal_eq_not_checkLegal rs
          rw [hf] at h2
          cases hck : checkLegal rs
          · rw [hck] at h2
            cases h2
          · rfl
        simp [Action.tag, tagLegal, hf, hc]
  · have hreq : requestAction true ⟨"agent", 5, 0, [], 0⟩ [.success (some .check) (6 : ℚ)]
        = (⟨"agent", 5 - 6, 0, [], 0⟩, .clockExhausted) := by
      unfold requestAction
      dsimp only
      rw [if_pos rfl, if_pos (by norm_num)]
    have h1 : c4first = ⟨⟨"agent", 5 - 6, 0, [], 0⟩, true, some .fold, validate (some .fold) rsOption⟩ := by
      unfold c4first decideOnce
      rw [if_neg (by norm_num), hreq]
    have hclk : c4first.client.game_clock = -1 := by
      rw [h1]
      norm_num
    have h2 : c4second = ⟨c4first.client, false, some .fold, validate (some .fold) rsOption⟩ := by
      unfold c4second decideOnce
      rw [if_pos (by rw [hclk]; norm_num)]
    exact ⟨hclk, by rw [h1], by rw [h2], by rw [h2], by rw [h2, hclk]; norm_num⟩

/-- Counterexample for C4 as stated: an agent whose clock has run out is
indeed not consulted, but at `rsOption` (continue-cost zero, so folding is
illegal) the engine's proposed `FoldAction` is converted by
`_validate_action` into `CheckAction`: the action applied to the hand is a
check, not a fold. -/
theorem clock_exhaustion_cex :
    (decideOnce true ⟨"agent", -1, 0, [], 0⟩ rsOption []).consulted = false
    ∧ (decideOnce true ⟨"agent", -1, 0, [], 0⟩ rsOption []).applied = .check
    ∧ Action.check ≠ Action.fold := by
  have h : decideOnce true ⟨"agent", -1, 0, [], 0⟩ rsOption []
      = ⟨⟨"agent", -1, 0, [], 0⟩, false, some .fold, validate (some .fold) rsOption⟩ := by
    unfold decideOnce
    rw [if_pos (by norm_num)]
  refine ⟨by rw [h], ?_, by decide⟩
  rw [h]
  show validate (some .fold) rsOption = .check
  decide

/-- Witness for C4: a concrete exhausted-clock agent is not consulted and
gets `FoldAction` proposed on its behalf. -/
theorem clock_exhaustion_witness :
    (decideOnce true ⟨"w", -2, 0, [], 0⟩ rsOption []).consulted = false
    ∧ (decideOnce true ⟨"w", -2, 0, [], 0⟩ rsOption []).proposed = some .fold
    ∧ (decideOnce true ⟨"w", -2, 0, [], 0⟩ rsOption []).client.game_clock ≤ 0 := by
  have hmem : decideOnce true ⟨"w", -2, 0, [], 0⟩ rsOption []
      ∈ decideAll true ⟨"w", -2, 0, [], 0⟩ [(rsOption, [])] := by
    unfold decideAll
    exact List.mem_cons_self _ _
  exact clock_exhaustion_policy.1 true ⟨"w", -2, 0, [], 0⟩ [(rsOption, [])] (by norm_num) _ hmem

/-! ## C6 and C10: retry exhaustion and framing of `request_action`. -/

/-- A failed attempt just moves to the next one (client.py lines 153-158). -/
theorem requestAction_failure_step (enforce : Bool) (c : Client) (l : List Attempt) :
    requestAction enforce c (.failure :: l) = requestAction enforce c l := rfl

/-- Exhausting the whole retry budget returns `(c, no action)`. -/
theorem requestAction_all_failures (enforce : Bool) (c : Client) :
    ∀ atts : List Attempt, (∀ x ∈ atts, x = .failure) →
      requestAction enforce c atts = (c, .returned none)
  | [], _ => rfl
  | .success _ _ :: _, h => nomatch h _ (List.mem_cons_self _ _)
  | .failure :: tl, h =>
      requestAction_all_failures enforce c tl (fun x hx => h x (List.mem_cons_of_mem _ hx))

/-- C6 (amended): when every attempt times out or hits a closed
connection, `request_action` returns no action (`None`) without raising
and leaves the client untouched; the orchestrator then hands `None` to
`_validate_action`, so the decision applied is `CheckAction` when checking
is legal and `FoldAction` otherwise — a default Fold only when Check is
illegal. -/
theorem retries_exhausted_policy (c : Client) (rs : RoundState) (atts : List Attempt)
    (_hne : atts ≠ []) (hall : ∀ x ∈ atts, x = .failure) (hclk : ¬(c.game_clock ≤ 0)) :
    requestAction true c atts = (c, .returned none)
    ∧ decideOnce true c rs atts
        = ⟨c, true, none, if checkLegal rs then Action.check else Action.fold⟩ := by
  have hreq := requestAction_all_failures true c atts hall
  refine ⟨hreq, ?_⟩
  unfold decideOnce
  rw [if_neg hclk, hreq]
  rfl

/-- Counterexample for C6 as stated: with a healthy clock and both
attempts failing, the proposed action is `None` and the validator turns it
into `CheckAction` at `rsOption` — the orchestrator's default is not a
Fold when checking is legal. -/
theorem retries_exhausted_cex :
    (decideOnce true ⟨"agent", 300, 0, [], 0⟩ rsOption [.failure, .failure]).proposed = none
    ∧ (decideOnce true ⟨"agent", 300, 0, [], 0⟩ rsOption [.failure, .failure]).applied = .check
    ∧ Action.check ≠ Action.fold := by
  have hd : decideOnce true ⟨"agent", 300, 0, [], 0⟩ rsOption [.failure, .failure]
      = ⟨⟨"agent", 300, 0, [], 0⟩, true, none, validate none rsOption⟩ := by
    unfold decideOnce
    rw [if_neg (by norm_num)]
    rfl
  refine ⟨by rw [hd], ?_, by decide⟩
  rw [hd]
  show validate none rsOption = .check
  decide

/-- Witness for C6: a concrete two-failure call (the configured
`ACTION_REQUEST_RETRIES` is 2). -/
theorem retries_exhausted_witness :
    requestAction true ⟨"w", 300, 0, [], 0⟩ [.failure, .failure]
      = (⟨"w", 300, 0, [], 0⟩, .returned none)
    ∧ decideOnce true ⟨"w", 300, 0, [], 0⟩ rsOption [.failure, .failure]
        = ⟨⟨"w", 300, 0, [], 0⟩, true, none,
            if checkLegal rsOption then Action.check else Action.fold⟩ :=
  retries_exhausted_policy ⟨"w", 300, 0, [], 0⟩ rsOption [.failure, .failure]
    (by decide) (by decide) (by norm_num)

/-- C10: framing of `request_action`: the name, bankroll and log fields
never change; nothing changes when enforcement is off; a call whose every
attempt fails leaves the client untouched; and the game clock either stays
put or is decremented exactly once, by the measured duration of the first
successful round trip, under enforcement. -/
theorem request_action_frame (enforce : Bool) (c : Client) (atts : List Attempt)
    (c' : Client) (r : ReqResult) (h : requestAction enforce c atts = (c', r)) :
    c'.name = c.name ∧ c'.bankroll = c.bankroll ∧ c'.log = c.log ∧ c'.log_size = c.log_size
    ∧ (enforce = false → c' = c)
    ∧ ((∀ x ∈ atts, x = .failure) → c' = c ∧ r = .returned none)
    ∧ (c'.game_clock = c.game_clock ∨
        (enforce = true ∧ ∃ pre resp dur rest,
          atts = pre ++ .success resp dur :: rest
          ∧ (∀ x ∈ pre, x = .failure)
          ∧ c'.game_clock = c.game_clock - dur)) := by
  induction atts with
  | nil =>
      have h' : (c, ReqResult.returned none) = (c', r) := h
      rw [Prod.mk.injEq] at h'
      obtain ⟨hc, hr⟩ := h'
      subst hc
      subst hr
      exact ⟨rfl, rfl, rfl, rfl, fun _ => rfl, fun _ => ⟨rfl, rfl⟩, Or.inl rfl⟩
  | cons hd tl ih =>
      cases hd with
      | failure =>
          have h' : requestAction enforce c tl = (c', r) := h
          obtain ⟨f1, f2, f3, f4, f5, f6, f7⟩ := ih h'
          refine ⟨f1, f2, f3, f4, f5, ?_, ?_⟩
          · intro hall
            exact f6 (fun x hx => hall x (List.mem_cons_of_mem _ hx))
          · rcases f7 with h7 | ⟨he, pre, resp, dur, rest, hsplit, hpre, hclk⟩
            · exact Or.inl h7
            · refine Or.inr ⟨he, .failure :: pre, resp, dur, rest, ?_, ?_, hclk⟩
              · rw [hsplit]
                rfl
              · intro x hx
                rcases List.mem_cons.mp hx with hx1 | hx2
                · exact hx1
                · exact hpre x hx2
      | success resp dur =>
          cases enforce with
          | false =>
              have h' : (c, ReqResult.returned resp) = (c', r) := h
              rw [Prod.mk.injEq] at h'
              obtain ⟨hc, hr⟩ := h'
              subst hc
              refine ⟨rfl, rfl, rfl, rfl, fun _ => rfl, ?_, Or.inl rfl⟩
              intro hall
              exact absurd (hall _ (List.mem_cons_self _ _)) (by simp)
          | true =>
              have h' :
                  (if ({ c with game_clock := c.game_clock - dur } : Client).game_clock ≤ 0
                   then (({ c with game_clock := c.game_clock - dur } : Client),
                          ReqResult.clockExhausted)
                   else (({ c with game_clock := c.game_clock - dur } : Client),
                          ReqResult.returned resp)) = (c', r) := h
              split at h'
              · rw [Prod.mk.injEq] at h'
                obtain ⟨hc, hr⟩ := h'
                subst hc
                refine ⟨rfl, rfl, rfl, rfl, fun he => Bool.noConfusion he, ?_, ?_⟩
                · intro hall
                  exact absurd (hall _ (List.mem_cons_self _ _)) (by simp)
                · exact Or.inr ⟨rfl, [], resp, dur, tl, rfl,
                    fun x hx => absurd hx (List.not_mem_nil x), rfl⟩
              · rw [Prod.mk.injEq] at h'
                obtain ⟨hc, hr⟩ := h'
                subst hc
                refine ⟨rfl, rfl, rfl, rfl, fun he => Bool.noConfusion he, ?_, ?_⟩
                · intro hall
                  exact absurd (hall _ (List.mem_cons_self _ _)) (by simp)
                · exact Or.inr ⟨rfl, [], resp, dur, tl, rfl,
                    fun x hx => absurd hx (List.not_mem_nil x), rfl⟩

/-- Witness for C10: one failure followed by a successful 3-second round
trip decrements a 10-second clock to 7 and touches nothing else. -/
theorem request_action_frame_witness :
    Client.bankroll ⟨"w", 10 - 3, 5, ["x"], 1⟩ = Client.bankroll ⟨"w", (10 : ℚ), 5, ["x"], 1⟩
    ∧ Client.log ⟨"w", 10 - 3, 5, ["x"], 1⟩ = Client.log ⟨"w", (10 : ℚ), 5, ["x"], 1⟩ :=
  have h : requestAction true ⟨"w", (10 : ℚ), 5, ["x"], 1⟩ [.failure, .success (some .call) 3]
      = (⟨"w", 10 - 3, 5, ["x"], 1⟩, .returned (some .call)) := by
    rw [requestAction_failure_step]
    unfold requestAction
    dsimp only
    rw [if_pos rfl, if_neg (by norm_num)]
  have hf := request_action_frame true ⟨"w", (10 : ℚ), 5, ["x"], 1⟩
    [.failure, .success (some .call) 3] ⟨"w", 10 - 3, 5, ["x"], 1⟩ (.returned (some .call)) h
  ⟨hf.2.1, hf.2.2.1⟩

/-! ## C8: the readiness handshake (`Client.check_ready`). -/

/-- One attempt of the `check_ready` retry loop: a successful round trip
carries the decoded `ready` boolean; `failure` is an
`asyncio.TimeoutError` or a closed connection. -/
inductive ReadyAttempt where
  | success (ready : Bool)
  | failure
deriving DecidableEq, Repr

/-- `Client.check_ready` (client.py lines 70-105) over the outcome of each
loop iteration (a list of length `READY_CHECK_RETRIES` models one call):
the first success returns the bot's answer; the last failed attempt
returns `False` rather than raising; `none` models Python's implicit
`None` when the loop body never runs (a zero retry budget). -/
def checkReady : List ReadyAttempt → Option Bool
  | [] => none
  | .success b :: _ => some b
  | .failure :: rest => if rest.isEmpty then some false else checkReady rest

/-- C8: a `check_ready` call in which every attempt times out or hits a
closed connection returns the boolean `False` — an unready agent is
reported, not a crash. -/
theorem check_ready_all_failures (atts : List ReadyAttempt)
    (hne : atts ≠ []) (hall : ∀ x ∈ atts, x = .failure) :
    checkReady atts = some false := by
  induction atts with
  | nil => exact absurd rfl hne
  | cons hd tl ih =>
      have hh : hd = .failure := hall hd (List.mem_cons_self hd tl)
      subst hh
      rw [show checkReady (.failure :: tl)
          = (if tl.isEmpty then some false else checkReady tl) from rfl]
      cases tl with
      | nil => rfl
      | cons h2 t2 =>
          rw [if_neg (by simp)]
          exact ih (by simp) (fun x hx => hall x (List.mem_cons_of_mem _ hx))

/-- Witness for C8: a single failing attempt (the configured
`READY_CHECK_RETRIES` is 1) reports not-ready. -/
theorem check_ready_all_failures_witness : checkReady [.failure] = some false :=
  check_ready_all_failures [.failure] (by decide) (by decide)

/-! ## C5: the byte-capped log buffer of `Client.end_round`. -/

/-- The sentinel entry appended when the log cap is crossed
(client.py lines 204-206). -/
def SENTINEL : String := "Log size limit reached. No further entries will be added."

/-- The log-append loop of `Client.end_round` (client.py lines 195-208):
each entry is measured in UTF-8 bytes; an entry that fits is appended and
counted; the first entry that does not fit appends the sentinel — only if
the running size is still strictly below the cap — pins `log_size` to the
cap and stops the loop. -/
def appendLogs (limit : Nat) : List String × Nat → List String → List String × Nat
  | (log, size), [] => (log, size)
  | (log, size), e :: rest =>
      let esz := e.utf8ByteSize
      if size + esz ≤ limit then appendLogs limit (log ++ [e], size + esz) rest
      else if size < limit then (log ++ [SENTINEL], limit)
      else (log, size)

/-- A 60-byte log entry. -/
def entry60 : String := "aaaaaaaaaaaaaaaaaaaaaaaaaaaaaaaaaaaaaaaaaaaaaaaaaaaaaaaaaaaa"

/-- Another 60-byte log entry. -/
def entry60b : String := "bbbbbbbbbbbbbbbbbbbbbbbbbbbbbbbbbbbbbbbbbbbbbbbbbbbbbbbbbbbb"

/-- A 40-byte log entry. -/
def entry40 : String := "cccccccccccccccccccccccccccccccccccccccc"

/-- C5 (amended): with cap 100 and two 60-byte entries the buffer ends
holding exactly the first entry plus the sentinel with `log_size = 100`;
in general `log_size` never exceeds the cap; and once `log_size` equals
the cap a later `end_round` call appends no sentinel and accepts only the
leading zero-byte entries of its list. -/
theorem log_cap_policy :
    appendLogs 100 ([], 0) [entry60, entry60b] = ([entry60, SENTINEL], 100)
    ∧ (∀ (limit size : Nat) (log : List String) (es : List String),
        size ≤ limit → (appendLogs limit (log, size) es).2 ≤ limit)
    ∧ (∀ (limit : Nat) (log : List String) (es : List String),
        appendLogs limit (log, limit) es
          = (log ++ es.takeWhile (fun e => e.utf8ByteSize == 0), limit)) := by
  refine ⟨by decide, ?_, ?_⟩
  · intro limit size log es
    induction es generalizing size log with
    | nil => intro hsz; exact hsz
    | cons e rest ih =>
        intro hsz
        rw [show appendLogs limit (log, size) (e :: rest)
            = (if size + e.utf8ByteSize ≤ limit
               then appendLogs limit (log ++ [e], size + e.utf8ByteSize) rest
               else if size < limit then (log ++ [SENTINEL], limit)
               else (log, size)) from rfl]
        split
        · next hfit => exact ih _ _ hfit
        · split
          · exact le_rfl
          · exact hsz
  · intro limit log es
    induction es generalizing log with
    | nil => simp [appendLogs]
    | cons e rest ih =>
        rw [show appendLogs limit (log, limit) (e :: rest)
            = (if limit + e.utf8ByteSize ≤ limit
               then appendLogs limit (log ++ [e], limit + e.utf8ByteSize) rest
               else if limit < limit then (log ++ [SENTINEL], limit)
               else (log, limit)) from rfl]
        by_cases hz : e.utf8ByteSize = 0
        · rw [if_pos (by omega)]
          have hlim : limit + e.utf8ByteSize = limit := by omega
          rw [hlim, ih]
          rw [List.takeWhile_cons, if_pos (by simp [hz])]
          simp
        · rw [if_neg (by omega), if_neg (by omega)]
          rw [List.takeWhile_cons, if_neg (by simp [hz])]
          simp

/-- Witness for C5: the cap bound and the after-cap behaviour, applied at
a concrete call. -/
theorem log_cap_policy_witness :
    (appendLogs 100 (["start"], 5) [entry60, entry60b]).2 ≤ 100
    ∧ appendLogs 100 ([entry60], 100) [entry40]
        = ([entry60] ++ [entry40].takeWhile (fun e => e.utf8ByteSize == 0), 100) :=
  ⟨log_cap_policy.2.1 100 5 ["start"] [entry60, entry60b] (by omega),
   log_cap_policy.2.2 100 [entry60] [entry40]⟩

/-- Counterexample for C5 as stated: first, after the claimed scenario a
later `end_round` carrying one zero-byte entry still grows the buffer — an
entry is accepted after the cap is reached; second, entries of 60 and 40
bytes land exactly on the cap with no sentinel ever appended, and a later
oversized entry is rejected still without a sentinel, refuting "exactly
one sentinel is ever appended". -/
theorem log_cap_cex :
    appendLogs 100 ([entry60, SENTINEL], 100) [""] = ([entry60, SENTINEL, ""], 100)
    ∧ appendLogs 100 ([], 0) [entry60, entry40] = ([entry60, entry40], 100)
    ∧ appendLogs 100 ([entry60, entry40], 100) [entry60b] = ([entry60, entry40], 100)
    ∧ SENTINEL ∉ [entry60, entry40] := by
  refine ⟨by decide, by decide, by decide, by decide⟩

/-! ## C7: the forfeit branch of `Game.run_match`. -/

/-- The pre-round part of `Game.run_match` (engine.py lines 212-242):
given the two `check_ready` results and the would-be settlement `play` of
a fully played match, returns the pair of bankroll deltas applied and the
number of rounds run.  When only one agent is unready the ready one gains
the hard-coded 1500-chip penalty ("Fold 1000 rounds = 1*500 small blind +
2*500 big blind"); when both are unready no chips move; in both cases
`run_round` is never called. -/
def runMatchModel (r0 r1 : Bool) (play : Int × Int) : (Int × Int) × Nat :=
  if r0 && r1 then (play, NUM_ROUNDS)
  else if !r0 && !r1 then ((0, 0), 0)
  else if r0 then ((1500, -1500), 0)
  else ((-1500, 1500), 0)

/-- C7 (amended): whenever at least one agent is unready no rounds are
played; when exactly one agent is unready that agent loses — and its
opponent gains — 1500 chips, the maximum possible loss over the full
schedule, `(NUM_ROUNDS / 2) * (SMALL_BLIND + BIG_BLIND)`; when both are
unready no chips move at all. -/
theorem unready_forfeit_policy (r0 r1 : Bool) (play : Int × Int)
    (h : ¬(r0 = true ∧ r1 = true)) :
    (runMatchModel r0 r1 play).2 = 0
    ∧ (r0 = true → r1 = false → (runMatchModel r0 r1 play).1 = (1500, -1500))
    ∧ (r0 = false → r1 = true → (runMatchModel r0 r1 play).1 = (-1500, 1500))
    ∧ (r0 = false → r1 = false → (runMatchModel r0 r1 play).1 = (0, 0))
    ∧ NUM_ROUNDS / 2 * (SMALL_BLIND + BIG_BLIND) = 1500 := by
  cases r0 <;> cases r1
  · exact ⟨rfl, fun hh => Bool.noConfusion hh, fun _ hh => Bool.noConfusion hh,
      fun _ _ => rfl, rfl⟩
  · exact ⟨rfl, fun hh => Bool.noConfusion hh, fun _ _ => rfl,
      fun _ hh => Bool.noConfusion hh, rfl⟩
  · exact ⟨rfl, fun _ _ => rfl, fun hh => Bool.noConfusion hh,
      fun hh => Bool.noConfusion hh, rfl⟩
  · exact absurd ⟨rfl, rfl⟩ h

/-- Witness for C7: player 0 unready, player 1 ready. -/
theorem unready_forfeit_witness :
    (runMatchModel false true (7, -7)).2 = 0
    ∧ (runMatchModel false true (7, -7)).1 = (-1500, 1500) :=
  have h := unready_forfeit_policy false true (7, -7) (fun hh => Bool.noConfusion hh.1)
  ⟨h.1, h.2.2.1 rfl rfl⟩

/-- Counterexample for C7 as stated: with both agents unready the match is
aborted but no penalty is transferred — neither "forfeiting agent"
bankroll decreases by 1500. -/
theorem unready_forfeit_cex :
    runMatchModel false false (0, 0) = ((0, 0), 0) ∧ (0 : Int) ≠ -1500 := by
  exact ⟨rfl, by decide⟩

/-! ## C9: the request payload never carries the opponent's hand. -/

/-- The JSON form of one action (`Client._convert_action_to_json`,
client.py lines 261-281). -/
inductive ActionJson where
  | foldJ
  | callJ
  | checkJ
  | raiseJ (amount : Nat)
deriving DecidableEq, Repr

/-- `Client._convert_action_to_json` on genuine actions. -/
def toJson : Action → ActionJson
  | .fold => .foldJ
  | .call => .callJ
  | .check => .checkJ
  | .raise amt => .raiseJ amt

/-- The `request_action` wire payload (client.py lines 121-128). -/
structure ActionRequestPayload where
  game_clock : ℚ
  player_hand : List Card
  board_cards : List Card
  new_actions : List ActionJson
deriving DecidableEq, Repr

/-- The payload as built at the `run_round` call site (engine.py line 171,
client.py lines 121-128): the acting player's own hand, the authoritative
board, that player's pending delta queue, and that player's clock. -/
def engineActionRequest (c : Client) (rs : RoundState) (q : List Action) :
    ActionRequestPayload :=
  ⟨c.game_clock, getH rs.hands rs.active, rs.board, q.map toJson⟩

/-- The `end_round` wire payload (client.py lines 180-189). -/
structure EndRoundPayload where
  player_hand : List Card
  opponent_hand : List Card
  board_cards : List Card
  new_actions : List ActionJson
  delta : Int
  is_match_over : Bool
deriving DecidableEq, Repr

/-- The `end_round` payload at its engine call site
(engine.py lines 189-197). -/
def engineEndRound (rs : RoundState) (i : Nat) (q : List Action) (delta : Int)
    (over : Bool) : EndRoundPayload :=
  ⟨getH rs.hands i, getH rs.hands (1 - i), rs.board, q.map toJson, delta, over⟩

/-- Replacing the non-acting player's hand cannot change what the acting
player is shown. -/
theorem getH_setH_opp (hd : Hand × Hand) (v : Hand) (b : Nat) :
    getH (setH hd (1 - b % 2) v) (b % 2) = getH hd (b % 2) := by
  rcases Nat.mod_two_eq_zero_or_one b with h | h <;> rw [h] <;> rfl

/-- C9: two engine states differing only in the opponent's hole cards
produce byte-identical `request_action` payloads — the payload is a
function of the agent's own hand, the board, its pending delta queue and
its clock alone; the opponent's hand appears only in the `end_round`
payload. -/
theorem request_payload_opponent_blind (c : Client) (rs : RoundState) (q : List Action)
    (opp : Hand) :
    engineActionRequest c { rs with hands := setH rs.hands (1 - rs.active) opp } q
      = engineActionRequest c rs q
    ∧ (∀ i delta over, (engineEndRound rs i q delta over).opponent_hand
        = getH rs.hands (1 - i)) := by
  constructor
  · unfold engineActionRequest
    have h : getH (setH rs.hands (1 - rs.active) opp) rs.active = getH rs.hands rs.active :=
      getH_setH_opp rs.hands opp rs.button
    rw [show ({ rs with hands := setH rs.hands (1 - rs.active) opp } : RoundState).active
        = rs.active from rfl]
    rw [h]
  · intro i delta over
    rfl

/-! ## C1: delta replication — the mirror replays the engine's actions.

The engine (`Game.run_round`) keeps one pending action queue per player:
each applied action is appended to the *other* player's queue
(engine.py line 185) and a queue is drained into the request at its
owner's next turn (client.py lines 219-235).  The agent-side runner
(`runner.py` lines 45-88) rebuilds its `RoundState` with the
authoritative `board_cards` of the request, replays the delta list
through its local `proceed`, asks the bot, and applies the bot's action
locally.  The mirror states differ from the engine state only in the
hands (the runner stores `[own_hand, []]`) and in the board/deck, which
is why the simulation below tracks equality of the core fields —
button, street, pips, stacks — and recovers the board from the
authoritative overwrite. -/

/-- Equality of the fields that drive every transition decision: button,
street, pips and stacks.  Hands, board and deck are excluded. -/
def eqCore (s t : RoundState) : Prop :=
  s.button = t.button ∧ s.street = t.street ∧ s.pips = t.pips ∧ s.stacks' = t.stacks'

/-- `eqCore` is reflexive. -/
theorem eqCore_refl (s : RoundState) : eqCore s s := ⟨rfl, rfl, rfl, rfl⟩

/-- `eqCore` is symmetric. -/
theorem eqCore_symm {s t : RoundState} (h : eqCore s t) : eqCore t s :=
  ⟨h.1.symm, h.2.1.symm, h.2.2.1.symm, h.2.2.2.symm⟩

/-- `eqCore` is transitive. -/
theorem eqCore_trans {s t u : RoundState} (h1 : eqCore s t) (h2 : eqCore t u) : eqCore s u :=
  ⟨h1.1.trans h2.1, h1.2.1.trans h2.2.1, h1.2.2.1.trans h2.2.2.1, h1.2.2.2.trans h2.2.2.2⟩

/-- Installing the authoritative board of a message
(`runner.py` lines 52-63 and 149-158). -/
def setBoard (s : RoundState) (b : List Card) : RoundState := { s with board := b }

/-- `setBoard` preserves the core fields. -/
theorem setBoard_core (s : RoundState) (b : List Card) : eqCore (setBoard s b) s :=
  ⟨rfl, rfl, rfl, rfl⟩

/-- Street advancement on core-equal states stays in lockstep: if one side
stays live, so does the other, with core-equal results. -/
theorem advanceStreet_sync (d1 d2 : Bool) (rank : Rank) (s t : RoundState)
    (hc : eqCore s t) (s' : RoundState) (h : advanceStreet d1 rank s = .inl s') :
    ∃ t', advanceStreet d2 rank t = .inl t' ∧ eqCore s' t' := by
  obtain ⟨hb, hst, hp, hk⟩ := hc
  unfold advanceStreet at h ⊢
  split at h
  · cases h
  · next hs5 =>
      rw [if_neg (by rw [← hst]; exact hs5)]
      cases h
      exact ⟨_, rfl, by simp [eqCore, hst, hk]⟩

/-- The shared transition function on core-equal states stays in
lockstep, whether or not either side deals from its deck: if one side
stays live, so does the other, with core-equal results. -/
theorem proceed_sync (d1 d2 : Bool) (rank : Rank) (s t : RoundState) (a : Action)
    (hc : eqCore s t) (s' : RoundState) (h : proceedAux d1 rank s a = .inl s') :
    ∃ t', proceedAux d2 rank t a = .inl t' ∧ eqCore s' t' := by
  obtain ⟨hb, hst, hp, hk⟩ := hc
  have hact : s.active = t.active := by
    unfold RoundState.active
    rw [hb]
  unfold proceedAux at h ⊢
  cases a with
  | fold => cases h
  | call =>
      dsimp only at h ⊢
      split at h
      · next h0 =>
          rw [if_pos (by rw [← hb]; exact h0)]
          cases h
          exact ⟨_, rfl, by simp [eqCore]⟩
      · next h0 =>
          rw [if_neg (by rw [← hb]; exact h0)]
          exact advanceStreet_sync d1 d2 rank _ _
            (by simp [eqCore, hb, hst, hp, hk, hact]) s' h
  | check =>
      dsimp only at h ⊢
      split at h
      · next h0 =>
          rw [if_pos (by rw [← hst, ← hb]; exact h0)]
          exact advanceStreet_sync d1 d2 rank _ _
            (by simp [eqCore, hb, hst, hp, hk]) s' h
      · next h0 =>
          rw [if_neg (by rw [← hst, ← hb]; exact h0)]
          cases h
          exact ⟨_, rfl, by simp [eqCore, hb, hst, hp, hk]⟩
  | raise amt =>
      dsimp only at h ⊢
      cases h
      exact ⟨_, rfl, by simp [eqCore, hb, hst, hp, hk, hact]⟩

/-- The deck-less mirror transition never touches the board. -/
theorem proceedM_board (rank : Rank) (s : RoundState) (a : Action) (s' : RoundState)
    (h : proceedAux false rank s a = .inl s') : s'.board = s.board := by
  unfold proceedAux at h
  cases a with
  | fold => cases h
  | call =>
      dsimp only at h
      split at h
      · cases h
        rfl
      · unfold advanceStreet at h
        split at h
        · cases h
        · cases h
          rfl
  | check =>
      dsimp only at h
      split at h
      · unfold advanceStreet at h
        split at h
        · cases h
        · cases h
          rfl
      · cases h
        rfl
  | raise amt =>
      cases h
      rfl

/-- The runner's replay loop (`runner.py` lines 65-66): each delta action
is pushed through the local transition in order; a terminal result is
absorbing. -/
def replayM (rank : Rank) : RoundState → List Action → RoundState ⊕ TerminalState
  | s, [] => .inl s
  | s, a :: rest =>
      match proceedM rank s a with
      | .inl s' => replayM rank s' rest
      | .inr t => .inr t

/-- Replay never touches the board. -/
theorem replayM_board (rank : Rank) (q : List Action) :
    ∀ (s s' : RoundState), replayM rank s q = .inl s' → s'.board = s.board := by
  induction q with
  | nil =>
      intro s s' h
      cases h
      rfl
  | cons a rest ih =>
      intro s s' h
      rw [show replayM rank s (a :: rest)
          = (match proceedM rank s a with
             | .inl s2 => replayM rank s2 rest
             | .inr t => .inr t) from rfl] at h
      cases hps : proceedM rank s a with
      | inl s2 =>
          rw [hps] at h
          dsimp only at h
          rw [ih s2 s' h]
          exact proceedM_board rank s a s2 hps
      | inr t =>
          rw [hps] at h
          cases h

/-- Replay on core-equal states stays in lockstep. -/
theorem replayM_sync (rank : Rank) (q : List Action) :
    ∀ (s t s' : RoundState), eqCore s t → replayM rank s q = .inl s' →
      ∃ t', replayM rank t q = .inl t' ∧ eqCore s' t' := by
  induction q with
  | nil =>
      intro s t s' hc h
      cases h
      exact ⟨t, rfl, hc⟩
  | cons a rest ih =>
      intro s t s' hc h
      rw [show replayM rank s (a :: rest)
          = (match proceedM rank s a with
             | .inl s2 => replayM rank s2 rest
             | .inr tm => .inr tm) from rfl] at h
      cases hps : proceedM rank s a with
      | inl s2 =>
          rw [hps] at h
          dsimp only at h
          obtain ⟨t2, ht2, hc2⟩ := proceed_sync false false rank s t a hc s2 hps
          have ht2' : proceedM rank t a = Sum.inl t2 := ht2
          obtain ⟨t', ht', hc'⟩ := ih s2 t2 s' hc2 h
          refine ⟨t', ?_, hc'⟩
          rw [show replayM rank t (a :: rest)
              = (match proceedM rank t a with
                 | .inl u => replayM rank u rest
                 | .inr tm => .inr tm) from rfl, ht2']
          exact ht'
      | inr tm =>
          rw [hps] at h
          cases h

/-- Replaying one more action at the end of the queue. -/
theorem replayM_append_single (rank : Rank) (q : List Action) (a : Action) :
    ∀ s : RoundState, replayM rank s (q ++ [a])
      = (match replayM rank s q with
         | .inl z => proceedM rank z a
         | .inr tm => .inr tm) := by
  induction q with
  | nil =>
      intro s
      show (match proceedM rank s a with
            | .inl s' => replayM rank s' []
            | .inr t => .inr t) = proceedM rank s a
      cases proceedM rank s a with
      | inl s' => rfl
      | inr t => rfl
  | cons b rest ih =>
      intro s
      rw [show (b :: rest) ++ [a] = b :: (rest ++ [a]) from rfl]
      rw [show replayM rank s (b :: (rest ++ [a]))
          = (match proceedM rank s b with
             | .inl s2 => replayM rank s2 (rest ++ [a])
             | .inr tm => .inr tm) from rfl]
      rw [show replayM rank s (b :: rest)
          = (match proceedM rank s b with
             | .inl s2 => replayM rank s2 rest
             | .inr tm => .inr tm) from rfl]
      cases hps : proceedM rank s b with
      | inl s2 =>
          dsimp only
          exact ih s2
      | inr tm => rfl

/-- The joint state of the engine loop and both agent-side mirrors during
one hand: the authoritative `RoundState`, the two pending delta queues
(`Game.new_actions`, engine.py lines 158 and 185) and the two runner
states.  A mirror state is the runner's `round_state` after its last
locally applied action; the queue holds what the engine has accumulated
for that player since then. -/
structure Sim where
  rs : RoundState
  q0 : List Action
  q1 : List Action
  m0 : RoundState
  m1 : RoundState
deriving DecidableEq, Repr

/-- What the runner computes at player `p`'s decision point
(`Runner.RequestAction`, runner.py lines 45-66): install the authoritative
board of the request, then replay the pending delta queue through the
local transition. -/
def mirrorView (rank : Rank) (sim : Sim) (p : Nat) : RoundState ⊕ TerminalState :=
  replayM rank (setBoard (if p = 0 then sim.m0 else sim.m1) sim.rs.board)
    (if p = 0 then sim.q0 else sim.q1)

/-- One decision of the joint system, driven by the validated action `a`
(C1 quantifies over sequences of validated actions, so the engine and the
acting runner apply the same `a`): the engine proceeds
(engine.py line 186) and appends `a` to the other player's queue
(line 185); the acting player's queue was drained into the request
(client.py lines 229-235); the acting runner replays its queue and applies
`a` locally (runner.py lines 65-66 and 86).  `none` once the hand is
over — the claim speaks of decision points, which are non-terminal. -/
def stepSim (rank : Rank) (sim : Sim) (a : Action) : Option Sim :=
  match proceed rank sim.rs a with
  | .inr _ => none
  | .inl rs' =>
      match mirrorView rank sim sim.rs.active with
      | .inr _ => none
      | .inl x =>
          match proceedM rank x a with
          | .inr _ => none
          | .inl m' =>
              if sim.rs.active = 0 then
                some ⟨rs', [], sim.q1 ++ [a], m', sim.m1⟩
              else
                some ⟨rs', sim.q0 ++ [a], [], sim.m0, m'⟩

/-- The runner's fresh hand (`Runner._new_round`, runner.py lines 149-158):
same blinds, stacks, button and street convention as the engine; the
opponent's hand is unknown (stored as `[]`) and there is no deck. -/
def initMirror (own : Hand) : RoundState :=
  { button := 0
    street := 0
    pips := (SMALL_BLIND, BIG_BLIND)
    stacks' := (STARTING_STACK - SMALL_BLIND, STARTING_STACK - BIG_BLIND)
    hands := (own, [])
    board := []
    deck := [] }

/-- The joint system at the start of a hand: fresh engine state, empty
queues, fresh mirrors. -/
def initSim (h0 h1 : Hand) (deck : List Card) : Sim :=
  ⟨initRS h0 h1 deck, [], [], initMirror h0, initMirror h1⟩

/-- Running the joint system over a list of validated actions. -/
def simRun (rank : Rank) : Sim → List Action → Option Sim
  | sim, [] => some sim
  | sim, a :: rest =>
      match stepSim rank sim a with
      | none => none
      | some sim' => simRun rank sim' rest

/-- Player `p`'s replayed mirror state exists (is non-terminal) and agrees
with the authoritative state on the core fields and the board. -/
def mirrorOk (rank : Rank) (sim : Sim) (p : Nat) : Prop :=
  ∃ x, mirrorView rank sim p = .inl x ∧ eqCore x sim.rs ∧ x.board = sim.rs.board

/-- The delta-replication invariant, for both players. -/
def simInv (rank : Rank) (sim : Sim) : Prop := mirrorOk rank sim 0 ∧ mirrorOk rank sim 1

/-- The invariant holds at the start of a hand. -/
theorem simInv_init (rank : Rank) (h0 h1 : Hand) (deck : List Card) :
    simInv rank (initSim h0 h1 deck) :=
  ⟨⟨setBoard (initMirror h0) [], rfl, ⟨rfl, rfl, rfl, rfl⟩, rfl⟩,
   ⟨setBoard (initMirror h1) [], rfl, ⟨rfl, rfl, rfl, rfl⟩, rfl⟩⟩

/-- The non-acting player's queue grows by the applied action and its
replay still reaches the new authoritative state. -/
theorem mirror_queue_extend (rank : Rank) (m : RoundState) (q : List Action)
    (rsOld rsNew : RoundState) (a : Action) (y : RoundState)
    (hy : replayM rank (setBoard m rsOld.board) q = .inl y)
    (hyc : eqCore y rsOld)
    (hpr : proceed rank rsOld a = .inl rsNew) :
    ∃ z, replayM rank (setBoard m rsNew.board) (q ++ [a]) = .inl z
      ∧ eqCore z rsNew ∧ z.board = rsNew.board := by
  have hcb : eqCore (setBoard m rsOld.board) (setBoard m rsNew.board) := ⟨rfl, rfl, rfl, rfl⟩
  obtain ⟨y2, hy2, hyc2⟩ := replayM_sync rank q _ _ y hcb hy
  have hcy : eqCore rsOld y2 := eqCore_trans (eqCore_symm hyc) hyc2
  obtain ⟨z, hz, hzc⟩ := proceed_sync true false rank rsOld y2 a hcy rsNew hpr
  have hz' : proceedM rank y2 a = .inl z := hz
  refine ⟨z, ?_, eqCore_symm hzc, ?_⟩
  · rw [replayM_append_single rank q a, hy2]
    exact hz'
  · rw [proceedM_board rank y2 a z hz', replayM_board rank q _ y2 hy2]
    rfl

/-- One joint step preserves the delta-replication invariant. -/
theorem stepSim_preserves (rank : Rank) (sim sim' : Sim) (a : Action)
    (hinv : simInv rank sim) (h : stepSim rank sim a = some sim') : simInv rank sim' := by
  unfold stepSim at h
  cases hpr : proceed rank sim.rs a with
  | inr tm =>
      rw [hpr] at h
      cases h
  | inl rs2 =>
      rw [hpr] at h
      dsimp only at h
      rcases Nat.mod_two_eq_zero_or_one sim.rs.button with hA | hA
      · have hA' : sim.rs.active = 0 := hA
        rw [hA'] at h
        obtain ⟨x, hx, hxc, hxb⟩ := hinv.1
        rw [hx] at h
        dsimp only at h
        obtain ⟨x2, hx2, hc2⟩ :=
          proceed_sync true false rank sim.rs x a (eqCore_symm hxc) rs2 hpr
        have hx2' : proceedM rank x a = .inl x2 := hx2
        rw [hx2'] at h
        dsimp only at h
        rw [if_pos rfl] at h
        cases h
        constructor
        · exact ⟨setBoard x2 rs2.board, rfl,
            eqCore_trans (setBoard_core _ _) (eqCore_symm hc2), rfl⟩
        · obtain ⟨y, hy, hyc, hyb⟩ := hinv.2
          have hy' : replayM rank (setBoard sim.m1 sim.rs.board) sim.q1 = .inl y := hy
          obtain ⟨z, hz, hzc, hzb⟩ :=
            mirror_queue_extend rank sim.m1 sim.q1 sim.rs rs2 a y hy' hyc hpr
          exact ⟨z, hz, hzc, hzb⟩
      · have hA' : sim.rs.active = 1 := hA
        rw [hA'] at h
        obtain ⟨x, hx, hxc, hxb⟩ := hinv.2
        rw [hx] at h
        dsimp only at h
        obtain ⟨x2, hx2, hc2⟩ :=
          proceed_sync true false rank sim.rs x a (eqCore_symm hxc) rs2 hpr
        have hx2' : proceedM rank x a = .inl x2 := hx2
        rw [hx2'] at h
        dsimp only at h
        rw [if_neg (by decide)] at h
        cases h
        constructor
        · obtain ⟨y, hy, hyc, hyb⟩ := hinv.1
          have hy' : replayM rank (setBoard sim.m0 sim.rs.board) sim.q0 = .inl y := hy
          obtain ⟨z, hz, hzc, hzb⟩ :=
            mirror_queue_extend rank sim.m0 sim.q0 sim.rs rs2 a y hy' hyc hpr
          exact ⟨z, hz, hzc, hzb⟩
        · exact ⟨setBoard x2 rs2.board, rfl,
            eqCore_trans (setBoard_core _ _) (eqCore_symm hc2), rfl⟩

/-- Running the joint system preserves the invariant. -/
theorem simRun_preserves (rank : Rank) (as : List Action) :
    ∀ (sim sim' : Sim), simInv rank sim → simRun rank sim as = some sim' →
      simInv rank sim' := by
  induction as with
  | nil =>
      intro sim sim' hinv h
      cases h
      exact hinv
  | cons a rest ih =>
      intro sim sim' hinv h
      rw [show simRun rank sim (a :: rest)
          = (match stepSim rank sim a with
             | none => none
             | some sim2 => simRun rank sim2 rest) from rfl] at h
      cases hst : stepSim rank sim a with
      | none =>
          rw [hst] at h
          cases h
      | some sim2 =>
          rw [hst] at h
          exact ih sim2 sim' (stepSim_preserves rank sim sim2 a hinv hst) h

/-- C1: for every hand and every sequence of validated actions driving the
engine to a decision point, each player's mirror — built with the same
blinds, stacks, button and street convention and fed only the delta
queues — reaches, after installing the authoritative board and replaying
its pending deltas, a `RoundState` whose pips, stacks, street and board
all equal the engine's authoritative state. -/
theorem mirror_replay_matches_engine (rank : Rank) (h0 h1 : Hand) (deck : List Card)
    (as : List Action) (sim' : Sim)
    (h : simRun rank (initSim h0 h1 deck) as = some sim') :
    ∀ p, p = 0 ∨ p = 1 →
      ∃ x, mirrorView rank sim' p = .inl x
        ∧ x.pips = sim'.rs.pips ∧ x.stacks' = sim'.rs.stacks'
        ∧ x.street = sim'.rs.street ∧ x.board = sim'.rs.board := by
  have hinv := simRun_preserves rank as _ sim' (simInv_init rank h0 h1 deck) h
  intro p hp
  rcases hp with hp | hp
  · subst hp
    obtain ⟨x, hx, hc, hb⟩ := hinv.1
    exact ⟨x, hx, hc.2.2.1, hc.2.2.2, hc.2.1, hb⟩
  · subst hp
    obtain ⟨x, hx, hc, hb⟩ := hinv.2
    exact ⟨x, hx, hc.2.2.1, hc.2.2.2, hc.2.1, hb⟩

/-- The concrete deck used by the C1 witness. -/
def deckC1 : List Card := ["2c", "3c", "4c", "5c", "6c"]

/-- The joint state reached from a fresh hand by the validated actions
small-blind call then big-blind check: the engine has advanced to the flop
and dealt three cards; player 0's queue carries the check. -/
def simC1 : Sim :=
  ⟨{ button := 1
     street := 3
     pips := (0, 0)
     stacks' := (398, 398)
     hands := (["Ah", "Ad"], ["Kh", "Kd"])
     board := ["2c", "3c", "4c"]
     deck := ["5c", "6c"] },
   [.check], [],
   { button := 1
     street := 0
     pips := (2, 2)
     stacks' := (398, 398)
     hands := (["Ah", "Ad"], [])
     board := []
     deck := [] },
   { button := 1
     street := 3
     pips := (0, 0)
     stacks' := (398, 398)
     hands := (["Kh", "Kd"], [])
     board := []
     deck := [] }⟩

/-- Witness for C1: after call-then-check, player 0's replayed mirror
agrees with the engine on pips, stacks, street and board. -/
theorem mirror_replay_witness :
    ∃ x, mirrorView rank0 simC1 0 = .inl x
      ∧ x.pips = simC1.rs.pips ∧ x.stacks' = simC1.rs.stacks'
      ∧ x.street = simC1.rs.street ∧ x.board = simC1.rs.board :=
  mirror_replay_matches_engine rank0 ["Ah", "Ad"] ["Kh", "Kd"] deckC1
    [.call, .check] simC1 (by decide) 0 (Or.inl rfl)

end PokerEngine
